import Mathlib

/-!
Verification development for the generatespidey batch generation pipeline
(src/generate.js and src/traits.js), shallowly embedded in Lean.

The embedding models:
- the trait catalog (traits.js) as a function from the four categories to
  their string lists;
- the in-memory rarity table as a function from category and trait value to
  a JS-style cell (absent key, NaN, or a natural number count);
- loadState (generate.js lines 85-128) as a pure fold over a directory
  listing, where each file is a name paired with an optional parsed record
  (none models a file whose content fails to read or parse);
- one iteration of the generation loop (generate.js lines 138-222) as a
  function runAttempt from an attempt environment (the sampled random
  values and the outcomes of every fallible external operation) and the
  global state to the new global state plus an optional thrown error;
- the while loop itself as runLoop, consuming a list of attempt
  environments (one per try), producing the final state and the observable
  event trace (per-identifier successes with the inter-iteration delay, and
  caught failures with the retry cool-down).
-/

set_option linter.unusedVariables false

namespace GenerateSpidey

/-- The four trait categories: the keys of the traits module and of the
rarityCounts object (generate.js lines 28-33). -/
inductive Category where
  | backgrounds
  | accessories
  | poses
  | colors
  deriving DecidableEq, Repr, Fintype

/-- The trait catalog from src/traits.js. -/
def traits : Category → List String
  | .backgrounds =>
    ["lava cave background",
     "ancient jungle background",
     "ice age mountain background",
     "dark tribal cave background"]
  | .accessories =>
    ["bone spear in hand",
     "stone axe weapon",
     "tribal mask",
     "bone necklace",
     "skull helmet",
     "feather headpiece",
     "wooden shield",
     "primitive drum",
     "stone guitar",
     "lightning totem staff"]
  | .poses =>
    ["standing hero pose",
     "running attack pose",
     "sitting ritual pose",
     "jumping action pose",
     "crouching stealth pose"]
  | .colors =>
    ["red tribal suit",
     "black shadow suit",
     "blue ice suit",
     "green jungle suit",
     "golden sun suit",
     "purple mystic suit",
     "white bone suit",
     "orange lava suit",
     "silver lightning suit",
     "brown earth suit"]

/-- generate.js line 9. -/
def TOTAL_SUPPLY : Int := 10000

/-- generate.js line 12: delay between generations. -/
def DELAY_MS : Nat := 500

/-- generate.js line 221: wait before retrying a failed identifier. -/
def RETRY_DELAY_MS : Nat := 3000

/-- A cell of a JS counter object: the key may be absent (reading it gives
undefined), hold NaN, or hold a number. -/
inductive RVal where
  | absent
  | nan
  | num (n : Nat)
  deriving DecidableEq, Repr

/-- Whether a cell holds an actual number. -/
def RVal.isNum : RVal → Bool
  | .num _ => true
  | _ => false

/-- The numeric reading of a cell, with absent and NaN contributing 0. -/
def RVal.toCount : RVal → Nat
  | .num n => n
  | _ => 0

/-- JS `x++` on a counter cell: a number is incremented; incrementing an
absent (undefined) or NaN cell yields NaN. -/
def jsIncr : RVal → RVal
  | .num n => .num (n + 1)
  | _ => .nan

/-- The rarityCounts object: category, then trait value, to cell. -/
def Rarity : Type := Category → String → RVal

/-- `rarityCounts[c][v]++` (generate.js lines 205-208 and line 118). -/
def incrRarity (r : Rarity) (c : Category) (v : String) : Rarity :=
  fun c' v' => if c' = c ∧ v' = v then jsIncr (r c v) else r c' v'

/-- The rarity initialization loop (generate.js lines 36-40): every catalog
value starts at 0, all other keys are absent. -/
def initRarity : Rarity :=
  fun c v => if v ∈ traits c then .num 0 else .absent

/-- One entry of a metadata attributes array. -/
structure Attr where
  trait_type : String
  value : String
  deriving DecidableEq, Repr

/-- The metadata record schema (generate.js lines 173-184). -/
structure MetaJson where
  name : String
  description : String
  image : String
  attributes : List Attr
  compiler : String
  deriving DecidableEq, Repr

/-- An allMetadata entry: the record spread together with tokenId and
metadataCID (generate.js lines 107-111 and 198-202). tokenId none models a
NaN identifier; metadataCID none models a null CID. -/
structure ManifestEntry where
  meta : MetaJson
  tokenId : Option Int
  metadataCID : Option String
  deriving DecidableEq, Repr

/-- The mutable globals of generate.js (lines 27-33). -/
structure GenState where
  allMetadata : List ManifestEntry
  rarity : Rarity

/-- The state at process start: empty manifest, zeroed rarity table. -/
def initState : GenState := ⟨[], initRarity⟩

/-- The value of the leading run of decimal digits, if nonempty. -/
def leadingNat (cs : List Char) : Option Nat :=
  let ds := cs.takeWhile Char.isDigit
  if ds.isEmpty then none
  else some (ds.foldl (fun acc c => acc * 10 + (c.toNat - 48)) 0)

/-- ASCII whitespace. -/
def isWS (c : Char) : Bool :=
  c == ' ' || c == '\t' || c == '\n' || c == '\r'

/-- Leading and trailing whitespace removed, as a character list. -/
def jsTrimList (s : String) : List Char :=
  ((s.toList.dropWhile isWS).reverse.dropWhile isWS).reverse

/-- JS parseInt in base 10: leading whitespace skipped, optional sign, then
the leading run of decimal digits; none models NaN (no digits). -/
def parseIntJS (s : String) : Option Int :=
  match jsTrimList s with
  | [] => none
  | c :: cs =>
    if c = '-' then (leadingNat cs).map (fun n => -(n : Int))
    else if c = '+' then (leadingNat cs).map (fun n => (n : Int))
    else (leadingNat (c :: cs)).map (fun n => (n : Int))

/-- Split a character list at the first occurrence of a pattern: the part
before it and the part after it, or none when the pattern does not occur. -/
def firstSplit (pat : List Char) : List Char → Option (List Char × List Char)
  | [] => if pat = [] then some ([], []) else none
  | c :: cs =>
    if pat.isPrefixOf (c :: cs) then some ([], (c :: cs).drop pat.length)
    else (firstSplit pat cs).map (fun p => (c :: p.1, p.2))

/-- JS String.replace with a string pattern: replaces only the first
occurrence. -/
def jsReplaceFirst (s pat repl : String) : String :=
  match firstSplit pat.toList s.toList with
  | none => s
  | some p => String.mk (p.1 ++ repl.toList ++ p.2)

/-- JS String.endsWith. -/
def jsEndsWith (s pat : String) : Bool :=
  pat.toList.isSuffixOf s.toList

/-- The ASCII uppercase-to-lowercase character map. -/
def lowerPairs : List (Char × Char) :=
  [('A', 'a'), ('B', 'b'), ('C', 'c'), ('D', 'd'), ('E', 'e'), ('F', 'f'),
   ('G', 'g'), ('H', 'h'), ('I', 'i'), ('J', 'j'), ('K', 'k'), ('L', 'l'),
   ('M', 'm'), ('N', 'n'), ('O', 'o'), ('P', 'p'), ('Q', 'q'), ('R', 'r'),
   ('S', 's'), ('T', 't'), ('U', 'u'), ('V', 'v'), ('W', 'w'), ('X', 'x'),
   ('Y', 'y'), ('Z', 'z')]

/-- Lowercase one character (ASCII fragment). -/
def lowerChar (c : Char) : Char := (lowerPairs.lookup c).getD c

/-- JS String.toLowerCase (the ASCII fragment, which covers every
trait_type label this program reads and writes). -/
def jsToLower (s : String) : String := String.mk (s.toList.map lowerChar)

/-- Which Category a string key of rarityCounts denotes, if any: the object
only ever has the four catalog keys (generate.js line 117 guard
`rarityCounts[category]`). -/
def parseCategory (s : String) : Option Category :=
  if s = "backgrounds" then some .backgrounds
  else if s = "accessories" then some .accessories
  else if s = "poses" then some .poses
  else if s = "colors" then some .colors
  else none

/-- Replay of one historical attribute into the rarity table (generate.js
lines 114-120): the plural category key is derived by lower-casing the
trait_type and appending a trailing "s"; the increment runs only when the
category key and the value key are present. -/
def replayAttr (r : Rarity) (a : Attr) : Rarity :=
  let category := jsToLower a.trait_type ++ "s"
  match parseCategory category with
  | some c => if r c a.value ≠ .absent then incrRarity r c a.value else r
  | none => r

/-- A directory entry for loadState: the filename and the result of
fs.readJson on it (none when reading or parsing the content throws). -/
def FileEntry : Type := String × Option MetaJson

/-- The body of the per-file loop of loadState (generate.js lines 97-125):
when the content read throws, the whole iteration is skipped (the parseInt
on the filename occurs after the read, inside the same try); otherwise the
filename id is parsed, the max is updated, the record is pushed onto
allMetadata with a blank metadataCID, and its attributes are replayed. -/
def processFile (acc : Int × GenState) (f : FileEntry) : Int × GenState :=
  match f.2 with
  | none => acc
  | some data =>
    let maxId := acc.1
    let st := acc.2
    let id := parseIntJS (jsReplaceFirst f.1 ".json" "")
    let maxId' :=
      match id with
      | some i => if i > maxId then i else maxId
      | none => maxId
    let st' : GenState :=
      ⟨st.allMetadata ++ [⟨data, id, some ""⟩],
       data.attributes.foldl replayAttr st.rarity⟩
    (maxId', st')

/-- loadState (generate.js lines 85-128): filter the listing to .json
files, fold the per-file loop from maxId 0, and return maxId + 1 together
with the updated globals. -/
def loadState (files : List FileEntry) (st : GenState) : Int × GenState :=
  let jsonFiles := files.filter (fun f => jsEndsWith f.1 ".json")
  let res := jsonFiles.foldl processFile (0, st)
  (res.1 + 1, res.2)

/-- The three environment-sourced storage configuration values
(generate.js lines 19-24): FILEBASE_KEY, FILEBASE_SECRET, FILEBASE_BUCKET.
none models an unset variable. -/
structure Config where
  key : Option String
  secret : Option String
  bucket : Option String
  deriving DecidableEq, Repr

/-- JS truthiness of an environment variable: unset or empty is falsy. -/
def envTruthy : Option String → Bool
  | none => false
  | some s => s != ""

/-- JS truthiness of a string-or-null value (a CID lookup result): null,
undefined and the empty string are falsy. -/
def strTruthy : Option String → Bool
  | none => false
  | some s => s != ""

/-- The remote-upload gate as written in the code (generate.js lines 163
and 191): `process.env.FILEBASE_KEY && process.env.FILEBASE_BUCKET`. -/
def remoteConfigured (cfg : Config) : Bool :=
  envTruthy cfg.key && envTruthy cfg.bucket

/-- A Math.random() output: a number in [0, 1). -/
def Rand : Type := {q : ℚ // 0 ≤ q ∧ q < 1}

/-- getRandomTrait (generate.js lines 43-46):
`options[Math.floor(q * options.length)]`, where an out-of-range index
reads as undefined (none). -/
def getRandomTrait (c : Category) (q : ℚ) : Option String :=
  let options := traits c
  let i : Int := Int.floor (q * (options.length : ℚ))
  if 0 ≤ i then options.get? i.toNat else none

/-- The trait actually bound in the loop body: getRandomTrait applied to a
Math.random() output, with undefined coerced to the string "undefined" at
its use sites. -/
def sampleTrait (c : Category) (r : Rand) : String :=
  (getRandomTrait c r.val).getD "undefined"

/-- The environment of one try of the loop body: the four Math.random()
outputs and the outcome of every fallible external operation of that try.
An Except.error models the operation throwing; imageCID and metadataCID
are the getCID results (none models null, since getCID swallows its own
errors and returns null, generate.js lines 69-82). -/
structure Attempt where
  rb : Rand
  ra : Rand
  rp : Rand
  rc : Rand
  fetchImage : Except String Unit
  writeImage : Except String Unit
  uploadImage : Except String Unit
  imageCID : Option String
  writeMeta : Except String Unit
  uploadMeta : Except String Unit
  metadataCID : Option String

/-- The image filename for an identifier (generate.js line 154). -/
def imageFileName (id : Int) : String := toString id ++ ".png"

/-- The metadata filename for an identifier (generate.js line 186). -/
def metadataFileName (id : Int) : String := toString id ++ ".json"

/-- The prompt string (generate.js line 146). -/
def buildPrompt (background accessory pose color : String) : String :=
  "chibi spiderman prehistoric stone age tribal style, " ++ background ++
    ", " ++ accessory ++ ", " ++ pose ++ ", " ++ color

/-- The value of the imageCID variable at the metadata-construction point:
"" when the upload gate is off (its initialization at line 160), else the
getCID result. -/
def imageCIDVal (cfg : Config) (att : Attempt) : Option String :=
  if remoteConfigured cfg then att.imageCID else some ""

/-- The value of the metadataCID variable at the push point: "" when the
upload gate is off (line 161), else the getCID result. -/
def metaCIDVal (cfg : Config) (att : Attempt) : Option String :=
  if remoteConfigured cfg then att.metadataCID else some ""

/-- The metadata record built at generate.js lines 173-184. -/
def attemptMetadata (cfg : Config) (id : Int) (att : Attempt) : MetaJson :=
  { name := "Tribal Spidey #" ++ toString id,
    description := "A collection of prehistoric tribal Spiderman chibis.",
    image :=
      if strTruthy (imageCIDVal cfg att) then
        "ipfs://" ++ (imageCIDVal cfg att).getD ""
      else
        "file://" ++ imageFileName id,
    attributes :=
      [⟨"Background", sampleTrait .backgrounds att.rb⟩,
       ⟨"Accessory", sampleTrait .accessories att.ra⟩,
       ⟨"Pose", sampleTrait .poses att.rp⟩,
       ⟨"Color", sampleTrait .colors att.rc⟩],
    compiler := "Antigravity Engine" }

/-- The manifest entry pushed at generate.js lines 198-202: the record
spread with tokenId and the resolved metadata CID. -/
def attemptEntry (cfg : Config) (id : Int) (att : Attempt) : ManifestEntry :=
  ⟨attemptMetadata cfg id att, some id, metaCIDVal cfg att⟩

/-- The four rarity increments of generate.js lines 205-208. -/
def attemptRarity (att : Attempt) (r : Rarity) : Rarity :=
  let r := incrRarity r .backgrounds (sampleTrait .backgrounds att.rb)
  let r := incrRarity r .accessories (sampleTrait .accessories att.ra)
  let r := incrRarity r .poses (sampleTrait .poses att.rp)
  incrRarity r .colors (sampleTrait .colors att.rc)

/-- The globals after the manifest push and the rarity increments
(generate.js lines 198-208). -/
def commitState (cfg : Config) (id : Int) (att : Attempt) (st : GenState) :
    GenState :=
  ⟨st.allMetadata ++ [attemptEntry cfg id att], attemptRarity att st.rarity⟩

/-- One try of the loop body (generate.js lines 138-210): the fallible
operations run in source order, and a throw at any point aborts the try,
returning the globals exactly as mutated so far together with the error.
The manifest push and the four rarity increments (lines 198-208) are the
only mutations and happen after every fallible operation. -/
def runAttempt (cfg : Config) (id : Int) (att : Attempt) (st : GenState) :
    GenState × Option String :=
  match att.fetchImage with
  | .error e => (st, some e)
  | .ok _ =>
    match att.writeImage with
    | .error e => (st, some e)
    | .ok _ =>
      match (if remoteConfigured cfg then att.uploadImage else .ok ()) with
      | .error e => (st, some e)
      | .ok _ =>
        match att.writeMeta with
        | .error e => (st, some e)
        | .ok _ =>
          match (if remoteConfigured cfg then att.uploadMeta else .ok ()) with
          | .error e => (st, some e)
          | .ok _ => (commitState cfg id att st, none)

/-- An observable event of the loop: a completed identifier followed by the
rate-limit delay (lines 213-216), or a caught failure followed by the retry
cool-down (lines 218-222). -/
inductive LoopEvent where
  | success (id : Int) (delayMs : Nat)
  | failure (id : Int) (msg : String) (waitMs : Nat)
  deriving DecidableEq, Repr

/-- The while loop (generate.js lines 137-223), consuming one attempt
environment per try: on success the identifier advances, on a caught error
the same identifier is retried with the next attempt environment. none
models running out of supplied attempt environments before the loop
condition turns false. -/
def runLoop (cfg : Config) (total : Int) :
    List Attempt → Int → GenState → Option (GenState × List LoopEvent)
  | [], id, st => if id > total then some (st, []) else none
  | att :: rest, id, st =>
    if id > total then some (st, [])
    else
      match runAttempt cfg id att st with
      | (st', none) =>
        (runLoop cfg total rest (id + 1) st').map
          (fun p => (p.1, LoopEvent.success id DELAY_MS :: p.2))
      | (st', some e) =>
        (runLoop cfg total rest id st').map
          (fun p => (p.1, LoopEvent.failure id e RETRY_DELAY_MS :: p.2))

/-- The whole generate entry point (generate.js lines 130-236, reports
aside): load state from the metadata directory, then run the loop from the
returned resume point up to TOTAL_SUPPLY. -/
def generate (cfg : Config) (files : List FileEntry) (atts : List Attempt) :
    Option (GenState × List LoopEvent) :=
  let res := loadState files initState
  runLoop cfg TOTAL_SUPPLY atts res.1 res.2

/-- The token ids of the manifest, in order. -/
def tokenIds (st : GenState) : List (Option Int) :=
  st.allMetadata.map (fun e => e.tokenId)

/-- Sum of the rarity counts of one category over its catalog values. -/
def categorySum (r : Rarity) (c : Category) : Nat :=
  ((traits c).map (fun v => (r c v).toCount)).sum

/-- Every catalog entry of the rarity table holds an actual number. -/
def wellFormed (r : Rarity) : Prop :=
  ∀ c : Category, ∀ v ∈ traits c, (r c v).isNum = true

/-- All catalog counters are present and zero. -/
def allZeroB (r : Rarity) : Bool :=
  [Category.backgrounds, Category.accessories, Category.poses,
   Category.colors].all
    (fun c => (traits c).all (fun v => r c v == RVal.num 0))

/-- The claim C1 reading of the resume point: the maximum id parsed from
the .json filenames alone, with no regard to whether the file content
parses. -/
def filenameMaxId (files : List FileEntry) : Int :=
  (files.filter (fun f => jsEndsWith f.1 ".json")).foldl
    (fun m f =>
      match parseIntJS (jsReplaceFirst f.1 ".json" "") with
      | some i => if i > m then i else m
      | none => m) 0

/-- The per-file max-id update as the code performs it: skipped entirely
when the content read fails, since the filename parse sits after the read
inside the try. -/
def maxStep (m : Int) (f : FileEntry) : Int :=
  match f.2 with
  | none => m
  | some _ =>
    match parseIntJS (jsReplaceFirst f.1 ".json" "") with
    | some i => if i > m then i else m
    | none => m

/-- The maximum id the code actually computes: over .json files whose
content also parses. -/
def parsedMaxId (files : List FileEntry) : Int :=
  (files.filter (fun f => jsEndsWith f.1 ".json")).foldl maxStep 0

/-! ### Basic facts about the attempt step -/

lemma runAttempt_eq (cfg : Config) (id : Int) (att : Attempt) (st : GenState) :
    (∃ e, runAttempt cfg id att st = (st, some e)) ∨
      runAttempt cfg id att st = (commitState cfg id att st, none) := by
  unfold runAttempt
  repeat' split
  all_goals first
    | (right; rfl)
    | (left; exact ⟨_, rfl⟩)

lemma runAttempt_error_state {cfg : Config} {id : Int} {att : Attempt}
    {st st' : GenState} {e : String}
    (h : runAttempt cfg id att st = (st', some e)) : st' = st := by
  rcases runAttempt_eq cfg id att st with ⟨e', he⟩ | hok
  · rw [he] at h
    exact (Prod.mk.injEq _ _ _ _ ▸ h).1.symm
  · rw [hok] at h
    simp at h

lemma runAttempt_ok_state {cfg : Config} {id : Int} {att : Attempt}
    {st st' : GenState}
    (h : runAttempt cfg id att st = (st', none)) :
    st' = commitState cfg id att st := by
  rcases runAttempt_eq cfg id att st with ⟨e', he⟩ | hok
  · rw [he] at h
    simp at h
  · rw [hok] at h
    exact (Prod.mk.injEq _ _ _ _ ▸ h).1.symm

/-! ### The sampled trait is always a catalog member -/

lemma traits_length_pos (c : Category) : 0 < (traits c).length := by
  cases c <;> decide

lemma traits_nodup (c : Category) : (traits c).Nodup := by
  cases c <;> decide

lemma getRandomTrait_mem_of {c : Category} {q : ℚ}
    (h0 : 0 ≤ q) (h1 : q < 1) :
    ∃ v, getRandomTrait c q = some v ∧ v ∈ traits c := by
  have hlen := traits_length_pos c
  unfold getRandomTrait
  have hge : (0 : ℤ) ≤ Int.floor (q * ((traits c).length : ℚ)) := by
    apply Int.floor_nonneg.mpr
    exact mul_nonneg h0 (by positivity)
  have hlt : Int.floor (q * ((traits c).length : ℚ)) < ((traits c).length : ℤ) := by
    apply Int.floor_lt.mpr
    push_cast
    calc q * ((traits c).length : ℚ)
        < 1 * ((traits c).length : ℚ) := by
          exact mul_lt_mul_of_pos_right h1 (by exact_mod_cast hlen)
      _ = ((traits c).length : ℚ) := one_mul _
  have hidx : (Int.floor (q * ((traits c).length : ℚ))).toNat < (traits c).length := by
    omega
  rw [if_pos hge]
  exact ⟨_, List.get?_eq_get hidx, List.get_mem _ _ _⟩

lemma sampleTrait_mem (c : Category) (r : Rand) : sampleTrait c r ∈ traits c := by
  obtain ⟨v, hv, hm⟩ := getRandomTrait_mem_of (c := c) r.2.1 r.2.2
  unfold sampleTrait
  rw [hv]
  exact hm

/-! ### Rarity sums under increments -/

lemma map_sum_update (l : List String) (f g : String → Nat) (v : String)
    (hnd : l.Nodup) (hv : v ∈ l) (h1 : g v = f v + 1)
    (h2 : ∀ x, x ≠ v → g x = f x) :
    (l.map g).sum = (l.map f).sum + 1 := by
  induction l with
  | nil => cases hv
  | cons a as ih =>
    rcases List.mem_cons.mp hv with heq | hv'
    · subst heq
      have hnotin : v ∉ as := (List.nodup_cons.mp hnd).1
      have hmap : as.map g = as.map f :=
        List.map_congr_left (fun x hx => h2 x (fun hxv => hnotin (hxv ▸ hx)))
      simp only [List.map_cons, List.sum_cons, hmap, h1]
      omega
    · have ha : a ≠ v := fun h => (List.nodup_cons.mp hnd).1 (h ▸ hv')
      have := ih (List.nodup_cons.mp hnd).2 hv'
      simp only [List.map_cons, List.sum_cons, h2 a ha, this]
      omega

lemma categorySum_incr_other {c c' : Category} (h : c' ≠ c)
    (r : Rarity) (v : String) :
    categorySum (incrRarity r c v) c' = categorySum r c' := by
  unfold categorySum
  congr 1
  apply List.map_congr_left
  intro x _
  unfold incrRarity
  simp [h]

lemma categorySum_incr_same {c : Category} (r : Rarity) {v : String}
    (hv : v ∈ traits c) (hn : (r c v).isNum = true) :
    categorySum (incrRarity r c v) c = categorySum r c + 1 := by
  unfold categorySum
  apply map_sum_update _ _ _ v (traits_nodup c) hv
  · unfold incrRarity
    simp only [and_self, if_pos, and_true]
    cases hr : r c v with
    | num n => simp [jsIncr, RVal.toCount]
    | absent => rw [hr] at hn; simp [RVal.isNum] at hn
    | nan => rw [hr] at hn; simp [RVal.isNum] at hn
  · intro x hx
    unfold incrRarity
    simp [hx]

lemma wellFormed_incr {r : Rarity} (h : wellFormed r) (c : Category)
    (v : String) : wellFormed (incrRarity r c v) := by
  intro c' v' hv'
  unfold incrRarity
  by_cases hcv : c' = c ∧ v' = v
  · obtain ⟨rfl, rfl⟩ := hcv
    have := h c' v' hv'
    simp only [and_self, if_pos]
    cases hr : r c' v' with
    | num n => simp [jsIncr, RVal.isNum]
    | absent => rw [hr] at this; simp [RVal.isNum] at this
    | nan => rw [hr] at this; simp [RVal.isNum] at this
  · simp only [if_neg hcv]
    exact h c' v' hv'

lemma attemptRarity_wf {r : Rarity} (h : wellFormed r) (att : Attempt) :
    wellFormed (attemptRarity att r) := by
  unfold attemptRarity
  exact wellFormed_incr (wellFormed_incr (wellFormed_incr (wellFormed_incr h _ _) _ _) _ _) _ _

lemma attemptRarity_sum {r : Rarity} (h : wellFormed r) (att : Attempt)
    (c : Category) :
    categorySum (attemptRarity att r) c = categorySum r c + 1 := by
  have h1 : wellFormed (incrRarity r .backgrounds (sampleTrait .backgrounds att.rb)) :=
    wellFormed_incr h _ _
  have h2 : wellFormed (incrRarity (incrRarity r .backgrounds (sampleTrait .backgrounds att.rb)) .accessories (sampleTrait .accessories att.ra)) :=
    wellFormed_incr h1 _ _
  have h3 : wellFormed (incrRarity (incrRarity (incrRarity r .backgrounds (sampleTrait .backgrounds att.rb)) .accessories (sampleTrait .accessories att.ra)) .poses (sampleTrait .poses att.rp)) :=
    wellFormed_incr h2 _ _
  unfold attemptRarity
  cases c with
  | backgrounds =>
    rw [categorySum_incr_other (by simp), categorySum_incr_other (by simp),
        categorySum_incr_other (by simp),
        categorySum_incr_same r (sampleTrait_mem _ _)
          (h _ _ (sampleTrait_mem _ att.rb))]
  | accessories =>
    rw [categorySum_incr_other (by simp), categorySum_incr_other (by simp),
        categorySum_incr_same _ (sampleTrait_mem _ _)
          (h1 _ _ (sampleTrait_mem _ att.ra)),
        categorySum_incr_other (by simp)]
  | poses =>
    rw [categorySum_incr_other (by simp),
        categorySum_incr_same _ (sampleTrait_mem _ _)
          (h2 _ _ (sampleTrait_mem _ att.rp)),
        categorySum_incr_other (by simp), categorySum_incr_other (by simp)]
  | colors =>
    rw [categorySum_incr_same _ (sampleTrait_mem _ _)
          (h3 _ _ (sampleTrait_mem _ att.rc)),
        categorySum_incr_other (by simp), categorySum_incr_other (by simp),
        categorySum_incr_other (by simp)]

lemma commitState_allMetadata (cfg : Config) (id : Int) (att : Attempt)
    (st : GenState) :
    (commitState cfg id att st).allMetadata =
      st.allMetadata ++ [attemptEntry cfg id att] := rfl

lemma commitState_rarity (cfg : Config) (id : Int) (att : Attempt)
    (st : GenState) :
    (commitState cfg id att st).rarity = attemptRarity att st.rarity := rfl

/-! ### The loop identifiers -/

lemma range_map_shift (id total : Int) (h : id ≤ total) :
    (List.range (total + 1 - id).toNat).map (fun (k : Nat) => some (id + (k : Int))) =
      some id ::
        (List.range (total + 1 - (id + 1)).toNat).map
          (fun (k : Nat) => some ((id + 1) + (k : Int))) := by
  have h1 : (total + 1 - id).toNat = (total + 1 - (id + 1)).toNat + 1 := by
    omega
  rw [h1, List.range_succ_eq_map]
  rw [List.map_cons, List.map_map]
  congr 1
  · simp
  · apply List.map_congr_left
    intro k _
    simp only [Function.comp_apply]
    congr 1
    push_cast
    ring

lemma tokenIds_commit (cfg : Config) (id : Int) (att : Attempt)
    (st : GenState) :
    tokenIds (commitState cfg id att st) = tokenIds st ++ [some id] := by
  unfold tokenIds
  rw [commitState_allMetadata]
  simp [attemptEntry]

lemma runLoop_tokenIds :
    ∀ (atts : List Attempt) (cfg : Config) (total id : Int) (st : GenState)
      (p : GenState × List LoopEvent),
      runLoop cfg total atts id st = some p →
      tokenIds p.1 =
        tokenIds st ++
          (List.range (total + 1 - id).toNat).map
            (fun (k : Nat) => some (id + (k : Int))) := by
  intro atts
  induction atts with
  | nil =>
    intro cfg total id st p h
    simp only [runLoop] at h
    split at h
    · obtain rfl : (st, ([] : List LoopEvent)) = p := Option.some.inj h
      have h0 : (total + 1 - id).toNat = 0 := by omega
      simp [h0]
    · cases h
  | cons att rest ih =>
    intro cfg total id st p h
    simp only [runLoop] at h
    split at h
    · obtain rfl : (st, ([] : List LoopEvent)) = p := Option.some.inj h
      have h0 : (total + 1 - id).toNat = 0 := by omega
      simp [h0]
    · rename_i hle
      have hle' : id ≤ total := by omega
      rcases hres : runAttempt cfg id att st with ⟨st', err⟩
      rw [hres] at h
      cases err with
      | none =>
        obtain ⟨q, hq, hpq⟩ := Option.map_eq_some'.mp h
        have hst' : st' = commitState cfg id att st := runAttempt_ok_state hres
        have := ih cfg total (id + 1) st' q hq
        rw [← hpq] at *
        simp only []
        rw [this, hst', tokenIds_commit, range_map_shift id total hle']
        simp
      | some e =>
        obtain ⟨q, hq, hpq⟩ := Option.map_eq_some'.mp h
        have hst' : st' = st := runAttempt_error_state hres
        have := ih cfg total id st' q hq
        rw [← hpq]
        simp only []
        rw [this, hst']

/-! ### The loop preserves the rarity-sum invariant -/

lemma commitState_length (cfg : Config) (id : Int) (att : Attempt)
    (st : GenState) :
    (commitState cfg id att st).allMetadata.length =
      st.allMetadata.length + 1 := by
  rw [commitState_allMetadata]
  simp

lemma runLoop_sum :
    ∀ (atts : List Attempt) (cfg : Config) (total id : Int) (st : GenState)
      (p : GenState × List LoopEvent),
      runLoop cfg total atts id st = some p →
      wellFormed st.rarity →
      (∀ c, categorySum p.1.rarity c + st.allMetadata.length =
         categorySum st.rarity c + p.1.allMetadata.length) ∧
        wellFormed p.1.rarity := by
  intro atts
  induction atts with
  | nil =>
    intro cfg total id st p h hwf
    simp only [runLoop] at h
    split at h
    · obtain rfl : (st, ([] : List LoopEvent)) = p := Option.some.inj h
      exact ⟨fun c => rfl, hwf⟩
    · cases h
  | cons att rest ih =>
    intro cfg total id st p h hwf
    simp only [runLoop] at h
    split at h
    · obtain rfl : (st, ([] : List LoopEvent)) = p := Option.some.inj h
      exact ⟨fun c => rfl, hwf⟩
    · rcases hres : runAttempt cfg id att st with ⟨st', err⟩
      rw [hres] at h
      cases err with
      | none =>
        obtain ⟨q, hq, hpq⟩ := Option.map_eq_some'.mp h
        have hst' : st' = commitState cfg id att st := runAttempt_ok_state hres
        have hwf' : wellFormed st'.rarity := by
          rw [hst', commitState_rarity]
          exact attemptRarity_wf hwf att
        obtain ⟨hsum, hwfq⟩ := ih cfg total (id + 1) st' q hq hwf'
        rw [← hpq]
        refine ⟨fun c => ?_, hwfq⟩
        have h1 := hsum c
        rw [hst', commitState_rarity, commitState_length,
            attemptRarity_sum hwf att c] at h1
        show categorySum q.1.rarity c + st.allMetadata.length =
          categorySum st.rarity c + q.1.allMetadata.length
        omega
      | some e =>
        obtain ⟨q, hq, hpq⟩ := Option.map_eq_some'.mp h
        have hst' : st' = st := runAttempt_error_state hres
        rw [hst'] at hq
        obtain ⟨hsum, hwfq⟩ := ih cfg total id st q hq hwf
        rw [← hpq]
        exact ⟨hsum, hwfq⟩

/-! ### loadState: the resume point -/

lemma processFile_fst (acc : Int × GenState) (f : FileEntry) :
    (processFile acc f).1 = maxStep acc.1 f := by
  unfold processFile maxStep
  rcases f with ⟨name, content⟩
  cases content <;> rfl

lemma foldl_processFile_fst :
    ∀ (fs : List FileEntry) (m : Int) (st : GenState),
      (fs.foldl processFile (m, st)).1 = fs.foldl maxStep m := by
  intro fs
  induction fs with
  | nil => intro m st; rfl
  | cons f fs ih =>
    intro m st
    have hsplit : processFile (m, st) f =
        (maxStep m f, (processFile (m, st) f).2) := by
      apply Prod.ext
      · exact processFile_fst (m, st) f
      · rfl
    simp only [List.foldl_cons]
    rw [hsplit, ih]

/-! ### Concrete fixtures for witnesses and counterexamples -/

/-- A Math.random() output of 0. -/
def r0 : Rand := ⟨0, by decide⟩

/-- A fully successful attempt environment with concrete CIDs. -/
def attOk : Attempt :=
  { rb := r0, ra := r0, rp := r0, rc := r0,
    fetchImage := Except.ok (), writeImage := Except.ok (),
    uploadImage := Except.ok (), imageCID := some "QmTest",
    writeMeta := Except.ok (), uploadMeta := Except.ok (),
    metadataCID := some "QmMeta" }

/-- An attempt whose image fetch throws. -/
def attFail : Attempt := { attOk with fetchImage := Except.error "boom" }

/-- An attempt whose image upload throws. -/
def attUploadFail : Attempt :=
  { attOk with uploadImage := Except.error "upload denied" }

/-- No storage credentials configured. -/
def cfg0 : Config := ⟨none, none, none⟩

/-- All three storage credentials configured. -/
def cfg3 : Config := ⟨some "k", some "s", some "b"⟩

/-- Access key and bucket set, secret key absent. -/
def cfgNoSecret : Config := ⟨some "k", none, some "b"⟩

/-- A historical record whose four attributes are all catalog-valid. -/
def demoRecord : MetaJson :=
  { name := "Tribal Spidey #1",
    description := "A collection of prehistoric tribal Spiderman chibis.",
    image := "file://1.png",
    attributes :=
      [⟨"Background", "lava cave background"⟩,
       ⟨"Accessory", "bone spear in hand"⟩,
       ⟨"Pose", "standing hero pose"⟩,
       ⟨"Color", "red tribal suit"⟩],
    compiler := "Antigravity Engine" }

/-- A historical record whose Background value is not in the current
catalog (catalog drift). -/
def driftRecord : MetaJson :=
  { demoRecord with attributes :=
      [⟨"Background", "martian sky"⟩,
       ⟨"Accessory", "bone spear in hand"⟩,
       ⟨"Pose", "standing hero pose"⟩,
       ⟨"Color", "red tribal suit"⟩] }

/-! ### Claim theorems -/

/-- C1, counterexample: the directory holding the single unreadable file
5.json has filename-parsed maximum id 5, yet loadState returns resume
point 1, not 6 — so the resume point is not one plus the maximum integer
parsed from the .json filenames independently of content parse success:
an unreadable file contributes nothing, because the filename parse sits
after the content read inside the per-file try. -/
theorem loadState_resume_independent_cex :
    filenameMaxId [("5.json", (none : Option MetaJson))] = 5 ∧
    (loadState [("5.json", (none : Option MetaJson))] initState).1 ≠
      filenameMaxId [("5.json", (none : Option MetaJson))] + 1 ∧
    (loadState [("5.json", (none : Option MetaJson))] initState).1 = 1 := by
  decide

/-- C1 (amended): a malformed or unreadable record file is logged and
skipped without aborting the scan (removing it changes nothing about the
result), but its filename-parsed identifier does not count toward the
resume point: the resume point equals one plus the maximum id parsed from
the filenames of those .json files whose content also reads
successfully. -/
theorem loadState_resume_point :
    (∀ (files : List FileEntry) (st : GenState),
        (loadState files st).1 = parsedMaxId files + 1) ∧
    (∀ (name : String) (rest : List FileEntry) (st : GenState),
        loadState ((name, (none : Option MetaJson)) :: rest) st =
          loadState rest st) := by
  constructor
  · intro files st
    show (List.foldl processFile (0, st)
        (List.filter (fun f => jsEndsWith f.1 ".json") files)).1 + 1 =
      parsedMaxId files + 1
    rw [foldl_processFile_fst]
    rfl
  · intro name rest st
    unfold loadState
    cases hend : jsEndsWith name ".json" with
    | false => simp [List.filter_cons, hend]
    | true => simp [List.filter_cons, hend, processFile]

/-- C3: the empty metadata directory yields resume point 1 with every
rarity counter present and zero, and a directory holding only 1.json with
catalog-valid attributes yields resume point 2 with the matching
backgrounds counter at 1. -/
theorem loadState_scenarios :
    (loadState [] initState).1 = 1 ∧
    allZeroB (loadState [] initState).2.rarity = true ∧
    (loadState [("1.json", some demoRecord)] initState).1 = 2 ∧
    (loadState [("1.json", some demoRecord)] initState).2.rarity
      Category.backgrounds "lava cave background" = RVal.num 1 := by
  decide

/-- C4, counterexample: after loading a directory with the single record
1.json whose Background value is outside the current catalog, one record
has been processed (it sits in the manifest) but the backgrounds rarity
counts sum to 0, not 1 — the category sum does not always equal the number
of records processed. -/
theorem rarity_sum_cex :
    (loadState [("1.json", some driftRecord)] initState).2.allMetadata.length = 1 ∧
    categorySum (loadState [("1.json", some driftRecord)] initState).2.rarity
      Category.backgrounds = 0 ∧
    categorySum (loadState [("1.json", some driftRecord)] initState).2.rarity
        Category.backgrounds ≠
      (loadState [("1.json", some driftRecord)] initState).2.allMetadata.length := by
  decide

/-- C4 (amended): during the generation loop the invariant does hold
exactly — every completed record adds exactly one to each category sum, so
each category sum grows in lockstep with the manifest length; at load time
replayed attributes whose category or value fall outside the current
catalog are skipped, so the sums may undercount replayed records. -/
theorem loop_rarity_sum_invariant (cfg : Config) (total id : Int)
    (atts : List Attempt) (st : GenState) (p : GenState × List LoopEvent)
    (hwf : wellFormed st.rarity)
    (h : runLoop cfg total atts id st = some p) (c : Category) :
    categorySum p.1.rarity c + st.allMetadata.length =
      categorySum st.rarity c + p.1.allMetadata.length :=
  (runLoop_sum atts cfg total id st p h hwf).1 c

/-- Witness for the amended C4, on a one-record run with no credentials. -/
theorem loop_rarity_sum_invariant_witness :
    ∃ p, runLoop cfg0 1 [attOk] 1 initState = some p ∧
      categorySum p.1.rarity Category.backgrounds +
          initState.allMetadata.length =
        categorySum initState.rarity Category.backgrounds +
          p.1.allMetadata.length := by
  obtain ⟨p, hp⟩ : ∃ p, runLoop cfg0 1 [attOk] 1 initState = some p := ⟨_, rfl⟩
  exact ⟨p, hp,
    loop_rarity_sum_invariant cfg0 1 1 [attOk] initState p
      (by unfold wellFormed; decide) hp Category.backgrounds⟩

/-- C2: for a run starting from an empty manifest at identifier 1, if the
loop reaches the target, the token ids of the produced records are exactly
the dense sequence 1..total in order — no gaps and no duplicates — no
matter how many failed tries were interleaved, because the loop advances
only after an attempt completes without throwing and each success keeps
exactly one record. -/
theorem loop_ids_dense (cfg : Config) (total : Int) (atts : List Attempt)
    (st0 : GenState) (p : GenState × List LoopEvent)
    (h0 : st0.allMetadata = [])
    (h : runLoop cfg total atts 1 st0 = some p) :
    tokenIds p.1 =
      (List.range total.toNat).map (fun (k : Nat) => some (1 + (k : Int))) := by
  rw [runLoop_tokenIds atts cfg total 1 st0 p h]
  have h0' : tokenIds st0 = [] := by unfold tokenIds; rw [h0]; rfl
  rw [h0']
  have ht : (total + 1 - 1 : Int) = total := by ring
  rw [ht]
  simp

/-- Witness for C2: a two-record run with a failure retried in between
still yields token ids 1, 2. -/
theorem loop_ids_dense_witness :
    ∃ p, runLoop cfg0 2 [attOk, attFail, attOk] 1 initState = some p ∧
      tokenIds p.1 = [some 1, some 2] := by
  obtain ⟨p, hp⟩ :
      ∃ p, runLoop cfg0 2 [attOk, attFail, attOk] 1 initState = some p :=
    ⟨_, rfl⟩
  refine ⟨p, hp, ?_⟩
  rw [loop_ids_dense cfg0 2 [attOk, attFail, attOk] initState p rfl hp]
  decide

/-- C5: any throw inside a try is caught at the identifier level — the
loop logs the failure event with the thrown message, waits the fixed
3000 ms cool-down (longer than the 500 ms inter-iteration delay), and
retries the same identifier from scratch with the next attempt
environment; this holds for any number n of consecutive failures (there is
no retry cap), and each completed identifier emits a success event with
the fixed 500 ms delay before the next identifier. -/
theorem loop_retry_semantics :
    DELAY_MS < RETRY_DELAY_MS ∧
    (∀ (cfg : Config) (total id : Int) (st : GenState) (att : Attempt)
       (e : String) (n : Nat) (rest : List Attempt),
       id ≤ total →
       runAttempt cfg id att st = (st, some e) →
       runLoop cfg total (List.replicate n att ++ rest) id st =
         (runLoop cfg total rest id st).map
           (fun p => (p.1,
             List.replicate n (LoopEvent.failure id e RETRY_DELAY_MS) ++ p.2))) ∧
    (∀ (cfg : Config) (total id : Int) (st st' : GenState) (att : Attempt)
       (rest : List Attempt),
       id ≤ total →
       runAttempt cfg id att st = (st', none) →
       runLoop cfg total (att :: rest) id st =
         (runLoop cfg total rest (id + 1) st').map
           (fun p => (p.1, LoopEvent.success id DELAY_MS :: p.2))) := by
  refine ⟨by decide, ?_, ?_⟩
  · intro cfg total id st att e n rest hid hatt
    induction n with
    | zero =>
      simp only [List.replicate_zero, List.nil_append]
      cases runLoop cfg total rest id st <;> simp
    | succ n ihn =>
      simp only [List.replicate_succ, List.cons_append]
      simp only [runLoop]
      rw [if_neg (by omega : ¬ id > total), hatt]
      show Option.map
          (fun p => (p.1, LoopEvent.failure id e RETRY_DELAY_MS :: p.2))
          (runLoop cfg total (List.replicate n att ++ rest) id st) = _
      rw [ihn]
      cases runLoop cfg total rest id st <;>
        simp [List.replicate_succ]
  · intro cfg total id st st' att rest hid hatt
    simp only [runLoop]
    rw [if_neg (by omega : ¬ id > total), hatt]

/-- Witness for C5: two consecutive failing tries at identifier 1 reduce
to the loop on the remaining attempts at the same identifier, with two
failure events recorded. -/
theorem loop_retry_semantics_witness :
    (1 : Int) ≤ 1 ∧
    runAttempt cfg0 1 attFail initState = (initState, some "boom") ∧
    runLoop cfg0 1 (List.replicate 2 attFail ++ [attOk]) 1 initState =
      (runLoop cfg0 1 [attOk] 1 initState).map
        (fun p => (p.1,
          List.replicate 2 (LoopEvent.failure 1 "boom" RETRY_DELAY_MS) ++ p.2)) :=
  ⟨by decide, rfl,
    loop_retry_semantics.2.1 cfg0 1 1 initState attFail "boom" 2 [attOk]
      (by decide) rfl⟩

/-- C6: every record produced by a completed try carries an image
reference whose scheme follows the storage configuration — file:// when
the upload gate is off, ipfs:// with the CID when the gate is on and a CID
was obtained, and the file:// fallback when the gate is on but the CID
lookup came back empty or null. -/
theorem attempt_image_uri (cfg : Config) (id : Int) (att : Attempt)
    (st st' : GenState) (h : runAttempt cfg id att st = (st', none)) :
    ∃ entry : ManifestEntry,
      st'.allMetadata = st.allMetadata ++ [entry] ∧
      (remoteConfigured cfg = false →
        entry.meta.image = "file://" ++ imageFileName id) ∧
      (remoteConfigured cfg = true → strTruthy att.imageCID = true →
        entry.meta.image = "ipfs://" ++ att.imageCID.getD "") ∧
      (remoteConfigured cfg = true → strTruthy att.imageCID = false →
        entry.meta.image = "file://" ++ imageFileName id) := by
  refine ⟨attemptEntry cfg id att, ?_, ?_, ?_, ?_⟩
  · rw [runAttempt_ok_state h, commitState_allMetadata]
  · intro hg
    show (attemptMetadata cfg id att).image = _
    unfold attemptMetadata imageCIDVal
    rw [hg]
    simp [strTruthy]
  · intro hg ht
    show (attemptMetadata cfg id att).image = _
    unfold attemptMetadata imageCIDVal
    rw [hg]
    simp [ht]
  · intro hg ht
    show (attemptMetadata cfg id att).image = _
    unfold attemptMetadata imageCIDVal
    rw [hg]
    simp [ht]

/-- Witness for C6: with all credentials configured and CID QmTest
obtained, the produced record's image is ipfs://QmTest. -/
theorem attempt_image_uri_witness :
    ∃ st' entry, runAttempt cfg3 1 attOk initState = (st', none) ∧
      st'.allMetadata = initState.allMetadata ++ [entry] ∧
      entry.meta.image = "ipfs://QmTest" := by
  obtain ⟨st', h⟩ : ∃ st', runAttempt cfg3 1 attOk initState = (st', none) :=
    ⟨_, rfl⟩
  obtain ⟨entry, he, hni, hyi, hyf⟩ := attempt_image_uri cfg3 1 attOk initState st' h
  refine ⟨st', entry, h, he, ?_⟩
  rw [hyi rfl rfl]
  decide

/-- C7, counterexample: with the access key and bucket set but the secret
key absent, the upload gate is on and the image upload is attempted (so
its failure aborts the try) — the absence of the secret key does not
disable remote upload, contradicting the claim that all three values gate
it. -/
theorem remote_gate_ignores_secret_cex :
    envTruthy cfgNoSecret.secret = false ∧
    remoteConfigured cfgNoSecret = true ∧
    (runAttempt cfgNoSecret 1 attUploadFail initState).2 =
      some "upload denied" := by
  decide

/-- C7 (amended): remote upload is gated on the access key and bucket name
only — the secret key is never consulted by the gate; when either the key
or the bucket is absent the gate is off, the upload outcomes and CID
lookups cannot influence the try, and every produced record falls back to
a file:// image reference with an empty metadata CID (local-only mode, not
an error). -/
theorem remote_gate_key_bucket_only :
    (∀ (cfg : Config) (s1 : Option String),
        remoteConfigured { cfg with secret := s1 } = remoteConfigured cfg) ∧
    (∀ cfg : Config,
       envTruthy cfg.key = false ∨ envTruthy cfg.bucket = false →
       remoteConfigured cfg = false ∧
       (∀ (id : Int) (att : Attempt) (st : GenState),
         runAttempt cfg id att st =
           runAttempt cfg id
             { att with uploadImage := Except.ok (), imageCID := none,
                        uploadMeta := Except.ok (), metadataCID := none } st) ∧
       (∀ (id : Int) (att : Attempt) (st st' : GenState),
         runAttempt cfg id att st = (st', none) →
         ∃ entry : ManifestEntry,
           st'.allMetadata = st.allMetadata ++ [entry] ∧
           entry.meta.image = "file://" ++ imageFileName id ∧
           entry.metadataCID = some "")) := by
  constructor
  · intro cfg s1
    rfl
  · intro cfg hcfg
    have hg : remoteConfigured cfg = false := by
      unfold remoteConfigured
      rcases hcfg with h | h <;> simp [h]
    refine ⟨hg, ?_, ?_⟩
    · intro id att st
      unfold runAttempt
      rw [hg]
      simp [commitState, attemptEntry, attemptMetadata, attemptRarity,
            imageCIDVal, metaCIDVal, hg]
    · intro id att st st' h
      refine ⟨attemptEntry cfg id att, ?_, ?_, ?_⟩
      · rw [runAttempt_ok_state h, commitState_allMetadata]
      · show (attemptMetadata cfg id att).image = _
        unfold attemptMetadata imageCIDVal
        rw [hg]
        simp [strTruthy]
      · show metaCIDVal cfg att = some ""
        unfold metaCIDVal
        rw [hg]
        simp

/-- Witness for the amended C7: with no credentials at all, the gate is
off and a completed try produces the file:// reference. -/
theorem remote_gate_key_bucket_only_witness :
    (envTruthy cfg0.key = false ∨ envTruthy cfg0.bucket = false) ∧
    remoteConfigured cfg0 = false ∧
    (∃ st' entry, runAttempt cfg0 1 attOk initState = (st', none) ∧
      initState.allMetadata ++ [entry] = st'.allMetadata ∧
      entry.meta.image = "file://" ++ imageFileName 1) := by
  have h := remote_gate_key_bucket_only.2 cfg0 (Or.inl (by decide))
  refine ⟨Or.inl (by decide), h.1, ?_⟩
  obtain ⟨st', hrun⟩ :
      ∃ st', runAttempt cfg0 1 attOk initState = (st', none) := ⟨_, rfl⟩
  obtain ⟨entry, he, hi, hm⟩ := h.2.2 1 attOk initState st' hrun
  exact ⟨st', entry, hrun, he.symm, hi⟩

/-- C8: during state loading, an attribute whose derived plural category
name is not a rarityCounts key, or whose value has no counter under the
derived category, changes nothing — the increment is skipped with no
error and the replay of the remaining attributes proceeds exactly as if
the attribute were not there. -/
theorem replay_skips_unknown (r : Rarity) (a : Attr) (rest : List Attr)
    (h : parseCategory (jsToLower a.trait_type ++ "s") = none ∨
         ∃ c, parseCategory (jsToLower a.trait_type ++ "s") = some c ∧
           r c a.value = RVal.absent) :
    replayAttr r a = r ∧
    (a :: rest).foldl replayAttr r = rest.foldl replayAttr r := by
  have hskip : replayAttr r a = r := by
    show (match parseCategory (jsToLower a.trait_type ++ "s") with
      | some c =>
        if r c a.value ≠ RVal.absent then incrRarity r c a.value else r
      | none => r) = r
    rcases h with h | ⟨c, hc, hv⟩
    · rw [h]
    · rw [hc]
      simp [hv]
  exact ⟨hskip, by simp [List.foldl_cons, hskip]⟩

/-- Witness for C8: a Background attribute with the off-catalog value
"martian sky" is skipped by the replay. -/
theorem replay_skips_unknown_witness :
    replayAttr initRarity ⟨"Background", "martian sky"⟩ = initRarity ∧
    ([⟨"Background", "martian sky"⟩] : List Attr).foldl replayAttr initRarity =
      initRarity := by
  have h := replay_skips_unknown initRarity ⟨"Background", "martian sky"⟩ []
    (Or.inr ⟨Category.backgrounds, by decide, by decide⟩)
  exact ⟨h.1, by rw [h.2]; rfl⟩

/-- C9: a try that throws leaves the in-memory aggregates exactly as they
were — every fallible operation of the loop body precedes the manifest
push and the four rarity increments, so the state returned by a failed
attempt has the same allMetadata and the same rarityCounts as before the
attempt began. -/
theorem attempt_failure_atomic (cfg : Config) (id : Int) (att : Attempt)
    (st st' : GenState) (e : String)
    (h : runAttempt cfg id att st = (st', some e)) :
    st'.allMetadata = st.allMetadata ∧ st'.rarity = st.rarity := by
  rw [runAttempt_error_state h]
  exact ⟨rfl, rfl⟩

/-- Witness for C9: the failing fetch at identifier 1 leaves the initial
state untouched. -/
theorem attempt_failure_atomic_witness :
    ∃ st' e, runAttempt cfg0 1 attFail initState = (st', some e) ∧
      st'.allMetadata = initState.allMetadata ∧
      st'.rarity = initState.rarity := by
  refine ⟨initState, "boom", rfl, ?_⟩
  exact attempt_failure_atomic cfg0 1 attFail initState initState "boom" rfl

/-- C10: for every category and every Math.random() output q in [0, 1),
getRandomTrait returns some catalog member of that category, and that
member's rarity counter exists (at zero) in the table initialized at
startup — so the per-record increments always target initialized
counters. -/
theorem getRandomTrait_in_catalog (c : Category) (q : ℚ)
    (h0 : 0 ≤ q) (h1 : q < 1) :
    ∃ v, getRandomTrait c q = some v ∧ v ∈ traits c ∧
      initRarity c v = RVal.num 0 := by
  obtain ⟨v, hv, hm⟩ := getRandomTrait_mem_of h0 h1
  refine ⟨v, hv, hm, ?_⟩
  unfold initRarity
  rw [if_pos hm]

/-- Witness for C10 at q = 0 on the backgrounds category. -/
theorem getRandomTrait_in_catalog_witness :
    (0 : ℚ) ≤ 0 ∧ (0 : ℚ) < 1 ∧
    ∃ v, getRandomTrait Category.backgrounds 0 = some v ∧
      v ∈ traits Category.backgrounds ∧
      initRarity Category.backgrounds v = RVal.num 0 :=
  ⟨by decide, by decide,
    getRandomTrait_in_catalog Category.backgrounds 0 (by decide) (by decide)⟩

end GenerateSpidey
